import Mathlib

/-!
Verification development for the swift-book offline conversion scripts
(`make-offline-files.py`).  The Python source is shallowly embedded:

* a text line is a `List Char` (lines produced by `str.splitlines` never
  contain a newline character);
* the per-line rewriters (`rewrite_docc_markdown_line_for_pandoc_*`) become
  pure functions, fallible ones return `Except ProcError`;
* the stateful chapter transpiler (`rewrite_docc_markdown_chapter_file_for_pandoc`)
  becomes an explicit state machine over `ChapterParserState` with a
  single-slot pushback buffer;
* the document assembler (`preprocess_main_file_markdown`) becomes a
  two-state scanner over the root document's lines;
* filesystem and index lookups are passed in explicitly (`RefIndex`,
  `AssetTable`, a `corpus` function from paths to file contents).

Character classes model the ASCII fragment of Python's `\s`, `\w`,
`str.lower`, `str.strip`; the book corpus these scripts process is ASCII
in all the places these classes are applied.
-/

/-- Lines are lists of characters. -/
abbrev Line := List Char

/-- Whitespace as recognised by Python's `\s` and `str.strip` (ASCII part). -/
def pySpace (c : Char) : Bool :=
  c == ' ' || c == '\t' || c == '\n' || c == '\r' || c == '\x0b' || c == '\x0c'

/-- Python `str.lstrip()` with no argument: drop leading whitespace. -/
def lstrip (l : Line) : Line := l.dropWhile pySpace

/-- Python `str.rstrip()` with no argument: drop trailing whitespace. -/
def rstrip (l : Line) : Line := (l.reverse.dropWhile pySpace).reverse

/-- Python `str.strip()` with no argument. -/
def pyStrip (l : Line) : Line := rstrip (lstrip l)

/-- Does `re.match(r'\s+', line)` succeed, i.e. does the line start with
whitespace? -/
def startsWithPySpace (l : Line) : Bool :=
  match l with
  | [] => false
  | c :: _ => pySpace c

/-- Python regex `\w` (ASCII part): letters, digits, underscore. -/
def isPyWordChar (c : Char) : Bool := c.isAlphanum || c == '_'

/-- Character class `[\w#-]` of the cross-reference regex. -/
def isRefChar (c : Char) : Bool := isPyWordChar c || c == '#' || c == '-'

/-- Character class `[\w-]` of the image-reference regex. -/
def isImageNameChar (c : Char) : Bool := isPyWordChar c || c == '-'

/-- Python `str.lower` on a character (ASCII part). -/
def pyLower (c : Char) : Char :=
  if 'A' ≤ c ∧ c ≤ 'Z' then Char.ofNat (c.toNat + 32) else c

/-- Python `line.startswith('# ')`, used for title extraction and by the
assembler's state machine. -/
def isHeadingLine (l : Line) : Bool := "# ".data.isPrefixOf l

/-- Decimal digits of a natural number, as rendered by Python string
formatting.  The first argument is structural fuel (any value above the
digit count works; the wrapper passes `n + 1`). -/
def natToDecimalGo : Nat → Nat → List Char
  | 0, _ => []
  | fuel + 1, n =>
    if n < 10 then [Char.ofNat (48 + n)]
    else natToDecimalGo fuel (n / 10) ++ [Char.ofNat (48 + n % 10)]

/-- Decimal rendering of a natural number. -/
def natToDecimal (n : Nat) : List Char := natToDecimalGo (n + 1) n

/-- Python `text.split(sep)` for a single-character separator. -/
def splitOnChar (sep : Char) : List Char → List (List Char)
  | [] => [[]]
  | c :: rest =>
    let r := splitOnChar sep rest
    if c = sep then [] :: r
    else
      match r with
      | [] => [[c]]
      | h :: t => (c :: h) :: t

/-- Lookup in an association list with Python-dict semantics: a later
binding of the same key shadows an earlier one (`dict(...)` built from a
list of pairs keeps the last value for a duplicated key). -/
def dictLookup {α β : Type} [DecidableEq α] : List (α × β) → α → Option β
  | [], _ => none
  | (k', v) :: rest, k =>
    match dictLookup rest k with
    | some v' => some v'
    | none => if k' = k then some v else none

/-- Index of the first occurrence of `pat` as a contiguous sublist of `cs`. -/
def findSubIdx (pat : List Char) : List Char → Option Nat
  | [] => if pat.isPrefixOf [] then some 0 else none
  | c :: rest =>
    if pat.isPrefixOf (c :: rest) then some 0
    else (findSubIdx pat rest).map (· + 1)

/-- Helper for `splitlines`: accumulates the current (reversed) line. -/
def splitlinesAux : List Char → List Char → List Line
  | [], acc => [acc.reverse]
  | c :: rest, acc =>
    if c = '\n' then
      if rest = [] then [acc.reverse] else acc.reverse :: splitlinesAux rest []
    else splitlinesAux rest (c :: acc)

/-- Python `str.splitlines()` restricted to `'\n'` separators (the book
sources use Unix line endings).  A trailing newline does not produce a
trailing empty line, and the empty string has no lines. -/
def splitlines (cs : List Char) : List Line :=
  match cs with
  | [] => []
  | _ => splitlinesAux cs []

/-- Loop of `re.sub(r'<!--.+?-->', '', text, flags=re.DOTALL)` in
`lines_for_included_document`: repeatedly delete from the first `<!--` up
to the first `-->` that leaves at least one character in between
(non-greedy `.+?`), scanning left to right without revisiting deleted
spans.  The first argument is structural fuel; every successful deletion
removes at least eight characters, so the wrapper's `cs.length` is ample. -/
def stripHtmlCommentsGo : Nat → List Char → List Char
  | 0, cs => cs
  | fuel + 1, cs =>
    match findSubIdx "<!--".data cs with
    | none => cs
    | some i =>
      match findSubIdx "-->".data (cs.drop (i + 5)) with
      | none => cs
      | some k => cs.take i ++ stripHtmlCommentsGo fuel (cs.drop (i + 5 + k + 3))

/-- Removal of (possibly ill-formed) HTML comments from a chapter file's
text, from `lines_for_included_document`. -/
def stripHtmlComments (cs : List Char) : List Char := stripHtmlCommentsGo cs.length cs

/-- Abnormal terminations of the Python run that the embedded fragment can
raise. -/
inductive ProcError where
  /-- `KeyError` from indexing `paths_and_titles_mapping` with an unknown
  stem (unresolved inclusion directive or cross-reference). -/
  | keyError (ident : List Char)
  /-- `ValueError` from unpacking `text.split('#')` into exactly two parts
  when the target holds two or more `#` separators. -/
  | valueError (target : List Char)
  /-- `AttributeError` from calling `.lower()` on a `None` title. -/
  | noneTitle (ident : List Char)
  /-- Failed `assert image_path.exists()`. -/
  | missingAsset (filename : List Char)
  /-- Failed `assert match` on the `file`-utility output (pixel width could
  not be determined). -/
  | badAssetWidth (filename : List Char)
deriving DecidableEq

/-- The Reference Index: stem of a markdown file mapped to its path and
optional title (`paths_and_titles_mapping` in the source). -/
abbrev RefIndex := List (Line × (Line × Option Line))

/-- The assets directory: filename mapped to the pixel width reported by
the `file` utility (`none` when the width cannot be determined; absence
from the table models a missing file). -/
abbrev AssetTable := List (Line × Option Nat)

/-- Match of `re.match(r'- term (.+):', line)`: the line must start with
the literal `- term `, and the greedy group captures everything up to the
last colon of the line (with at least one character before it; `.` does
not cross a newline).  Returns the captured group. -/
def termMatch (l : Line) : Option (Line) :=
  if "- term ".data.isPrefixOf l then
    let rest := (l.drop 7).takeWhile (· != '\n')
    match rest.reverse.dropWhile (· != ':') with
    | [] => none
    | _ :: revGroup => if revGroup = [] then none else some revGroup.reverse
  else none

/-- Match of `re.match(r'(#+ .+)', line)`: one or more `#`, a space, then
at least one character (not crossing a newline).  Returns the matched
group. -/
def headingShiftMatch (l : Line) : Option Line :=
  let hashes := l.takeWhile (· == '#')
  match l.drop hashes.length with
  | ' ' :: tail =>
    let body := tail.takeWhile (· != '\n')
    if hashes = [] ∨ body = [] then none else some (hashes ++ ' ' :: body)
  | _ => none

/-- Source `rewrite_docc_markdown_line_for_pandoc_heading_level_shift`:
prepend one `#` to any heading line. -/
def rewrite_docc_markdown_line_for_pandoc_heading_level_shift (line : Line) : Line :=
  match headingShiftMatch line with
  | some group => '#' :: group
  | none => line

/-- Source `rewrite_docc_markdown_line_for_pandoc_optionality_marker`:
`re.sub(r'(\*{1,2})_\?_', r'?\1', line)`, moving the `?` optionality
marker in front of the emphasis delimiters. -/
def rewrite_docc_markdown_line_for_pandoc_optionality_marker : Line → Line
  | [] => []
  | '*' :: '*' :: '_' :: '?' :: '_' :: rest =>
    '?' :: '*' :: '*' :: rewrite_docc_markdown_line_for_pandoc_optionality_marker rest
  | '*' :: '_' :: '?' :: '_' :: rest =>
    '?' :: '*' :: rewrite_docc_markdown_line_for_pandoc_optionality_marker rest
  | c :: rest => c :: rewrite_docc_markdown_line_for_pandoc_optionality_marker rest

/-- Match of `re.match(r'!\[([^\]]*)\]\(([\w-]+)\)', line)`: returns the
caption and the extension-free image name.  `re.match` only anchors at the
start, so trailing characters after the closing parenthesis are accepted
(and are dropped by the rewrite, which rebuilds the line from the groups
alone). -/
def imageRefMatch (line : Line) : Option (Line × Line) :=
  match line with
  | '!' :: '[' :: rest =>
    let caption := rest.takeWhile (· != ']')
    match rest.drop caption.length with
    | ']' :: '(' :: rest2 =>
      let name := rest2.takeWhile isImageNameChar
      if name = [] then none
      else
        match rest2.drop name.length with
        | ')' :: _ => some (caption, name)
        | _ => none
    | _ => none
  | _ => none

/-- Scale percentage `int(float(width) / 2 / 7.6)` of the image rewrite.
The source computes this in IEEE double precision; the embedding uses the
exact value `⌊width / 15.2⌋ = width * 10 / 152` (natural floor division),
with which the double-precision computation agrees: the exact quotient is
a rational with denominator 76, so it is never within double rounding
error of a different integer for any representable pixel width. -/
def scale_percentage (width : Nat) : Nat := width * 10 / 152

/-- Source `rewrite_docc_markdown_line_for_pandoc_image_reference`: rewrite
`![caption](name)` to `![caption](name@2x.png){ width=P% }`, failing if
the asset is absent or its width undeterminable. -/
def rewrite_docc_markdown_line_for_pandoc_image_reference (assets : AssetTable)
    (line : Line) : Except ProcError Line :=
  match imageRefMatch line with
  | none => .ok line
  | some (caption, image_filename_prefix) =>
    let image_filename := image_filename_prefix ++ "@2x.png".data
    match dictLookup assets image_filename with
    | none => .error (.missingAsset image_filename)
    | some none => .error (.badAssetWidth image_filename)
    | some (some width) =>
      .ok ("![".data ++ caption ++ "](".data ++ image_filename ++
        ")\x7b width=".data ++ natToDecimal (scale_percentage width) ++ "% \x7d".data)

/-- Match of the pattern `<doc:([\w#-]+)>` at the head of `cs`: returns the
captured target and the remainder after the closing `>`. -/
def docRefMatch (cs : List Char) : Option (List Char × List Char) :=
  if "<doc:".data.isPrefixOf cs then
    let rest := cs.drop 5
    let target := rest.takeWhile isRefChar
    if target = [] then none
    else
      match rest.drop target.length with
      | '>' :: rem => some (target, rem)
      | _ => none
  else none

/-- The anchor `human_readable_label.lower().replace(' ', '-')` computed in
`pandoc_markdown_reference_for_docc_reference_match`. -/
def anchor_identifier (human : Line) : Line :=
  (human.map pyLower).map (fun c => if c = ' ' then '-' else c)

/-- Source nested function `pandoc_markdown_reference_for_docc_reference_match`:
build the pandoc link replacing a `<doc:TARGET>` marker.  A target with a
fragment separator must split into exactly two parts
(`_, section = text.split('#')`); a fragment-free target is looked up in
the Reference Index and must carry a title. -/
def pandoc_markdown_reference_for_docc_reference_match (mapping : RefIndex)
    (text : Line) : Except ProcError Line := do
  let human ←
    if text.contains '#' then
      match splitOnChar '#' text with
      | [_, fragment] => .ok (fragment.map (fun c => if c = '-' then ' ' else c))
      | _ => .error (.valueError text)
    else
      match dictLookup mapping text with
      | none => .error (.keyError text)
      | some (_, none) => .error (.noneTitle text)
      | some (_, some title) => .ok title
  .ok ('[' :: human ++ "](#".data ++ anchor_identifier human ++ [')'])

/-- Scanning loop of `re.sub(r'<doc:([\w#-]+)>', ..., line)`: find
non-overlapping matches left to right and replace each through
`pandoc_markdown_reference_for_docc_reference_match`.  The first argument
is structural fuel; each step consumes at least one character, so the
wrapper's `line.length` is ample. -/
def rewriteInternalRefsGo (mapping : RefIndex) : Nat → List Char → Except ProcError (List Char)
  | _, [] => .ok []
  | 0, c :: rest => .ok (c :: rest)
  | fuel + 1, c :: rest =>
    match docRefMatch (c :: rest) with
    | some (target, rem) => do
      let repl ← pandoc_markdown_reference_for_docc_reference_match mapping target
      let tail ← rewriteInternalRefsGo mapping fuel rem
      .ok (repl ++ tail)
    | none => do
      let tail ← rewriteInternalRefsGo mapping fuel rest
      .ok (c :: tail)

/-- Source `rewrite_docc_markdown_line_for_pandoc_internal_references`. -/
def rewrite_docc_markdown_line_for_pandoc_internal_references (mapping : RefIndex)
    (line : Line) : Except ProcError Line :=
  rewriteInternalRefsGo mapping line.length line

/-- Source `rewrite_docc_markdown_line_for_pandoc`: the four per-line
rewrites applied in their fixed order. -/
def rewrite_docc_markdown_line_for_pandoc (mapping : RefIndex) (assets : AssetTable)
    (line : Line) : Except ProcError Line := do
  let line ← rewrite_docc_markdown_line_for_pandoc_internal_references mapping line
  let line := rewrite_docc_markdown_line_for_pandoc_optionality_marker line
  let line ← rewrite_docc_markdown_line_for_pandoc_image_reference assets line
  .ok (rewrite_docc_markdown_line_for_pandoc_heading_level_shift line)

/-- Control states of the chapter transpiler's state machine (source
`ParserState` in `rewrite_docc_markdown_chapter_file_for_pandoc`). -/
inductive ChapterParserState where
  | START
  | START_DEFINITION_LIST
  | READING_DEFINITION_LIST_DEFINITION_FIRST_LINE
  | READING_DEFINITION_LIST_DEFINITION
deriving DecidableEq

/-- Weight of a pending pushback line in the termination measure of the
transpiler loop: a pushback is consumed immediately in `START` and in
`READING_DEFINITION_LIST_DEFINITION_FIRST_LINE`, and after at most one
re-push in the other two states. -/
def pbWeight : ChapterParserState → Nat
  | .START => 1
  | .START_DEFINITION_LIST => 2
  | .READING_DEFINITION_LIST_DEFINITION_FIRST_LINE => 1
  | .READING_DEFINITION_LIST_DEFINITION => 2

/-- Upper bound on the remaining iterations of the transpiler loop. -/
def chapterMeasure (s : ChapterParserState) (pushback : Option Line) (lines : List Line) : Nat :=
  3 * lines.length + (match pushback with | none => 0 | some _ => pbWeight s)

/-- Loop of `rewrite_docc_markdown_chapter_file_for_pandoc`: while input
lines or a pushback remain, take the pushback if present (without
rewriting it again), otherwise pop and rewrite the next input line, and
dispatch on the state.  The `some` case holds the current line and
doubles as the shared loop body for a freshly popped line.  A pushback of
the empty line is represented as `none`: the source's `if pushback:` and
`while markdown_lines or pushback:` are truthiness tests, for which the
empty string counts as absent, so an empty line stored in the slot (which
only the `START_DEFINITION_LIST` arm can do) is never taken up again and
does not keep the loop alive.  The first argument is structural fuel; the
loop runs at most `chapterMeasure` iterations, so the wrapper's
`3 * lines.length + 3` is ample (the zero-fuel branch is unreachable,
which `chapterLoopGo_fuel_eq` below makes precise). -/
def chapterLoopGo (rw : Line → Except ProcError Line) :
    Nat → ChapterParserState → Option Line → List Line → Except ProcError (List Line)
  | _, _, none, [] => .ok []
  | 0, _, some _, _ => .ok []
  | 0, _, none, _ :: _ => .ok []
  | fuel + 1, s, some line, ls =>
    match s with
    | .START =>
      match termMatch line with
      | some label =>
        (chapterLoopGo rw fuel .START_DEFINITION_LIST none ls).map (fun out => label :: out)
      | none =>
        (chapterLoopGo rw fuel .START none ls).map (fun out => line :: out)
    | .START_DEFINITION_LIST =>
      -- `pushback = line` in the source; an empty line is falsy there, so it
      -- is pushed back only to be ignored — the slot stays effectively empty.
      if line = [] then
        (chapterLoopGo rw fuel .READING_DEFINITION_LIST_DEFINITION_FIRST_LINE none ls).map
          (fun out => [] :: out)
      else
        (chapterLoopGo rw fuel .READING_DEFINITION_LIST_DEFINITION_FIRST_LINE (some line) ls).map
          (fun out => [] :: out)
    | .READING_DEFINITION_LIST_DEFINITION_FIRST_LINE =>
      (chapterLoopGo rw fuel .READING_DEFINITION_LIST_DEFINITION none ls).map
        (fun out => (":    ".data ++ lstrip line) :: out)
    | .READING_DEFINITION_LIST_DEFINITION =>
      if line = [] then
        (chapterLoopGo rw fuel .READING_DEFINITION_LIST_DEFINITION none ls).map
          (fun out => [] :: out)
      else if startsWithPySpace line || line.isEmpty then
        (chapterLoopGo rw fuel .READING_DEFINITION_LIST_DEFINITION none ls).map
          (fun out => ("    ".data ++ lstrip line) :: out)
      else
        chapterLoopGo rw fuel .START (some line) ls
  | fuel + 1, s, none, l :: ls => do
    let line ← rw l
    chapterLoopGo rw fuel s (some line) ls

/-- The transpiler loop from a given state, pushback and input. -/
def chapterLoop (rw : Line → Except ProcError Line) (s : ChapterParserState)
    (pushback : Option Line) (lines : List Line) : Except ProcError (List Line) :=
  chapterLoopGo rw (3 * lines.length + 3) s pushback lines

/-- Source `rewrite_docc_markdown_chapter_file_for_pandoc`: run the state
machine from `START` with no pushback over the chapter's lines, rewriting
each freshly read line with `rewrite_docc_markdown_line_for_pandoc`. -/
def rewrite_docc_markdown_chapter_file_for_pandoc (mapping : RefIndex) (assets : AssetTable)
    (markdown_lines : List Line) : Except ProcError (List Line) :=
  chapterLoop (rewrite_docc_markdown_line_for_pandoc mapping assets) .START none markdown_lines

/-- One configuration of the transpiler loop: control state, pushback slot,
remaining input, output emitted so far. -/
structure TranspilerConfig where
  state : ChapterParserState
  pushback : Option Line
  input : List Line
  output : List Line
deriving DecidableEq

/-- Small-step version of the transpiler loop for a total line rewriter,
used to state termination: one step either pops an input line into the
slot (rewriting it there, as the loop body does on a fresh line) or
processes the line in the slot.  As in `chapterLoopGo`, a blank line
pushed back by the list-header-pending state is stored as `none`, because
the source's truthiness tests treat an empty pushback as absent (it
neither gets reprocessed nor keeps the loop alive).  Terminal
configurations (no input, no pushback) are fixed points. -/
def transpilerStep (rw : Line → Line) (c : TranspilerConfig) : TranspilerConfig :=
  match c.pushback, c.input with
  | none, [] => c
  | none, l :: ls => { c with pushback := some (rw l), input := ls }
  | some line, ls =>
    match c.state with
    | .START =>
      match termMatch line with
      | some label =>
        ⟨.START_DEFINITION_LIST, none, ls, c.output ++ [label]⟩
      | none => ⟨.START, none, ls, c.output ++ [line]⟩
    | .START_DEFINITION_LIST =>
      if line = [] then
        ⟨.READING_DEFINITION_LIST_DEFINITION_FIRST_LINE, none, ls, c.output ++ [[]]⟩
      else
        ⟨.READING_DEFINITION_LIST_DEFINITION_FIRST_LINE, some line, ls, c.output ++ [[]]⟩
    | .READING_DEFINITION_LIST_DEFINITION_FIRST_LINE =>
      ⟨.READING_DEFINITION_LIST_DEFINITION, none, ls, c.output ++ [":    ".data ++ lstrip line]⟩
    | .READING_DEFINITION_LIST_DEFINITION =>
      if line = [] then ⟨.READING_DEFINITION_LIST_DEFINITION, none, ls, c.output ++ [[]]⟩
      else if startsWithPySpace line || line.isEmpty then
        ⟨.READING_DEFINITION_LIST_DEFINITION, none, ls, c.output ++ ["    ".data ++ lstrip line]⟩
      else ⟨.START, some line, ls, c.output⟩

/-- Source `title_from_first_heading_in_markdown_file`: the stripped text
after `# ` on the first top-level heading line, if any. -/
def title_from_first_heading_in_markdown_file (lines : List Line) : Option Line :=
  (lines.find? isHeadingLine).map (fun l => pyStrip (l.drop 2))

/-- A markdown file of the book tree as seen by the index builder: its
path, its stem (filename without extension, as `Path.stem` computes), and
its lines. -/
structure MdFile where
  path : Line
  stem : Line
  lines : List Line
deriving DecidableEq

/-- Source `book_markdown_file_stems_to_paths_and_titles_mapping`: map each
file's stem to its path and extracted title; `dict(...)` keeps the last
binding for a duplicated stem, which `dictLookup` mirrors. -/
def book_markdown_file_stems_to_paths_and_titles_mapping (files : List MdFile) : RefIndex :=
  files.map (fun f => (f.stem, (f.path, title_from_first_heading_in_markdown_file f.lines)))

/-- The page-break marker line `r'\newpage{}'` emitted by the assembler. -/
def newpageLine : Line := "\\newpage\x7b\x7d".data

/-- Match of `re.match(r'^-\s*`<doc:(\w+)>`.*$', line)` (the backtick
characters written via their code point): an inclusion directive naming a
chapter by stem. -/
def directiveMatch (line : Line) : Option Line :=
  match line with
  | '-' :: rest =>
    match rest.dropWhile pySpace with
    | btick1 :: '<' :: 'd' :: 'o' :: 'c' :: ':' :: rest2 =>
      if btick1 = Char.ofNat 96 then
        let ident := rest2.takeWhile isPyWordChar
        if ident = [] then none
        else
          match rest2.drop ident.length with
          | '>' :: btick2 :: _ => if btick2 = Char.ofNat 96 then some ident else none
          | _ => none
      else none
    | _ => none
  | _ => none

/-- Source `lines_for_included_document`: resolve the stem in the index
(`KeyError` if absent), read and comment-strip the file, transpile it, and
surround it with a page-break marker and a trailing blank line.  The
`corpus` function stands for `Path.read_text`. -/
def lines_for_included_document (mapping : RefIndex) (corpus : Line → List Char)
    (assets : AssetTable) (markdown_file_stem : Line) : Except ProcError (List Line) := do
  match dictLookup mapping markdown_file_stem with
  | none => .error (.keyError markdown_file_stem)
  | some pt => do
    let text := stripHtmlComments (corpus pt.1)
    let lines ← rewrite_docc_markdown_chapter_file_for_pandoc mapping assets (splitlines text)
    .ok (newpageLine :: lines ++ [[]])

/-- The `PROCESSING_DOCUMENT_INCLUDES` state of
`preprocess_main_file_markdown`: splice transpiled chapters in place of
inclusion directives, prepend a page-break marker to any other top-level
heading line, and copy all other lines unchanged.  (The
`debug_chapters_subset` variable is `None` in the source, so every
directive is processed.) -/
def process_document_includes (mapping : RefIndex) (corpus : Line → List Char)
    (assets : AssetTable) : List Line → Except ProcError (List Line)
  | [] => .ok []
  | line :: rest =>
    match directiveMatch line with
    | some stem => do
      let chapterLines ← lines_for_included_document mapping corpus assets stem
      let tail ← process_document_includes mapping corpus assets rest
      .ok (chapterLines ++ tail)
    | none => do
      let tail ← process_document_includes mapping corpus assets rest
      .ok ((if isHeadingLine line then [newpageLine, line] else [line]) ++ tail)

/-- The `WAITING_FOR_FIRST_HEADING` state of
`preprocess_main_file_markdown`: drop lines until the first top-level
heading, emit it, and hand over to the include processor. -/
def waiting_for_first_heading (mapping : RefIndex) (corpus : Line → List Char)
    (assets : AssetTable) : List Line → Except ProcError (List Line)
  | [] => .ok []
  | line :: rest =>
    if isHeadingLine line then
      (process_document_includes mapping corpus assets rest).map (fun out => line :: out)
    else waiting_for_first_heading mapping corpus assets rest

/-- Source `preprocess_main_file_markdown`: the YAML metadata header
(computed by `markdown_header_lines` from git metadata, passed in here as
`header_lines`) followed by the scan of the root document's lines. -/
def preprocess_main_file_markdown (header_lines : List Line) (mapping : RefIndex)
    (corpus : Line → List Char) (assets : AssetTable)
    (main_markdown_file_lines : List Line) : Except ProcError (List Line) :=
  (waiting_for_first_heading mapping corpus assets main_markdown_file_lines).map
    (fun out => header_lines ++ out)

/-! ### Generic helper lemmas -/

theorem takeWhile_all_append (p : Char → Bool) (xs : List Char) (y : Char) (ys : List Char)
    (hxs : ∀ x ∈ xs, p x = true) (hy : p y = false) :
    (xs ++ y :: ys).takeWhile p = xs := by
  induction xs with
  | nil => simp [List.takeWhile_cons, hy]
  | cons a l ih =>
    have ha := hxs a (by simp)
    simp only [List.cons_append, List.takeWhile_cons, ha, if_true]
    rw [ih (fun x hx => hxs x (by simp [hx]))]

theorem docRefMatch_rem_lt {cs target rem : List Char}
    (h : docRefMatch cs = some (target, rem)) : rem.length < cs.length := by
  unfold docRefMatch at h
  by_cases hp : "<doc:".data.isPrefixOf cs
  · rw [if_pos hp] at h
    by_cases ht : (cs.drop 5).takeWhile isRefChar = []
    · simp [ht] at h
    · rw [if_neg ht] at h
      set n := ((cs.drop 5).takeWhile isRefChar).length with hn
      rcases heq : (cs.drop 5).drop n with _ | ⟨c, tail⟩
      · rw [heq] at h; simp at h
      · rw [heq] at h
        by_cases hc : c = '>'
        · subst hc
          simp at h
          obtain ⟨-, hrem⟩ := h
          have hlen : ((cs.drop 5).drop n).length = cs.length - 5 - n := by
            simp
            omega
          rw [heq] at hlen
          have h5 : ("<doc:".data).length ≤ cs.length :=
            (List.isPrefixOf_iff_prefix.mp hp).length_le
          simp at h5
          subst hrem
          simp at hlen
          omega
        · simp [hc] at h
  · simp [hp] at h

theorem docRefMatch_marker (target post : List Char) (h1 : target ≠ [])
    (h2 : ∀ c ∈ target, isRefChar c = true) :
    docRefMatch ("<doc:".data ++ (target ++ '>' :: post)) = some (target, post) := by
  have hpre : "<doc:".data.isPrefixOf ("<doc:".data ++ (target ++ '>' :: post)) = true := by
    rw [List.isPrefixOf_iff_prefix]
    exact List.prefix_append _ _
  have hdrop : ("<doc:".data ++ (target ++ '>' :: post)).drop 5 = target ++ '>' :: post := by
    have h5 : ("<doc:".data).length = 5 := rfl
    rw [← h5]
    exact List.drop_left _ _
  unfold docRefMatch
  rw [if_pos hpre]
  simp only [hdrop]
  rw [takeWhile_all_append isRefChar target '>' post h2 (by decide)]
  rw [if_neg h1, List.drop_left]
  rfl

theorem docRefMatch_not_lt {c : Char} {cs : List Char} (hc : c ≠ '<') :
    docRefMatch (c :: cs) = none := by
  unfold docRefMatch
  rw [if_neg]
  intro hp
  have := List.isPrefixOf_iff_prefix.mp hp
  rcases this with ⟨t, ht⟩
  have : '<' = c := by
    have := congrArg (fun l => l.head?) ht
    simpa using this
  exact hc this.symm

theorem except_bind_ok {α β : Type} (x : α) (k : α → Except ProcError β) :
    (Except.ok x >>= k) = k x := rfl

theorem except_bind_err {α β : Type} (e : ProcError) (k : α → Except ProcError β) :
    ((Except.error e : Except ProcError α) >>= k) = Except.error e := rfl

theorem rewriteInternalRefsGo_fuel_eq (m : RefIndex) :
    ∀ f1 f2 : Nat, ∀ cs : List Char, cs.length ≤ f1 → cs.length ≤ f2 →
    rewriteInternalRefsGo m f1 cs = rewriteInternalRefsGo m f2 cs := by
  intro f1
  induction f1 with
  | zero =>
    intro f2 cs h1 h2
    have hcs : cs = [] := by cases cs <;> simp_all
    subst hcs
    cases f2 <;> rfl
  | succ f ih =>
    intro f2 cs h1 h2
    cases cs with
    | nil => cases f2 <;> rfl
    | cons c rest =>
      cases f2 with
      | zero => simp at h2
      | succ f2' =>
        have hr1 : rest.length ≤ f := by simp at h1; omega
        have hr2 : rest.length ≤ f2' := by simp at h2; omega
        simp only [rewriteInternalRefsGo]
        cases hm : docRefMatch (c :: rest) with
        | none =>
          simp only [hm]
          rw [ih f2' rest hr1 hr2]
        | some tr =>
          obtain ⟨t, rem⟩ := tr
          have hlt := docRefMatch_rem_lt hm
          simp only [hm]
          cases hp : pandoc_markdown_reference_for_docc_reference_match m t with
          | error e => rw [except_bind_err, except_bind_err]
          | ok repl =>
            rw [except_bind_ok, except_bind_ok]
            have h1' : rem.length ≤ f := by simp at hlt; omega
            have h2' : rem.length ≤ f2' := by simp at hlt; omega
            rw [ih f2' rem h1' h2']

theorem chapterLoopGo_fuel_eq (rw : Line → Except ProcError Line) :
    ∀ f1 f2 : Nat, ∀ s : ChapterParserState, ∀ pb : Option Line, ∀ ls : List Line,
    chapterMeasure s pb ls < f1 → chapterMeasure s pb ls < f2 →
    chapterLoopGo rw f1 s pb ls = chapterLoopGo rw f2 s pb ls := by
  intro f1
  induction f1 with
  | zero => intro f2 s pb ls h1 h2; omega
  | succ f ih =>
    intro f2 s pb ls h1 h2
    cases pb with
    | none =>
      cases ls with
      | nil => cases f2 <;> rfl
      | cons l rest =>
        cases f2 with
        | zero => simp [chapterMeasure] at h2
        | succ f2' =>
          simp only [chapterLoopGo]
          cases hrw : rw l with
          | error e => rw [except_bind_err, except_bind_err]
          | ok line =>
            rw [except_bind_ok, except_bind_ok]
            apply ih f2'
            · simp [chapterMeasure, pbWeight] at h1 ⊢
              cases s <;> simp [pbWeight] <;> omega
            · simp [chapterMeasure, pbWeight] at h2 ⊢
              cases s <;> simp [pbWeight] <;> omega
    | some line =>
      cases f2 with
      | zero => simp [chapterMeasure] at h2
      | succ f2' =>
        cases s with
        | START =>
          simp only [chapterLoopGo]
          cases htm : termMatch line with
          | some label =>
            simp only [htm]
            rw [ih f2' _ none ls (by simp [chapterMeasure, pbWeight] at h1 ⊢; omega)
                (by simp [chapterMeasure, pbWeight] at h2 ⊢; omega)]
          | none =>
            simp only [htm]
            rw [ih f2' _ none ls (by simp [chapterMeasure, pbWeight] at h1 ⊢; omega)
                (by simp [chapterMeasure, pbWeight] at h2 ⊢; omega)]
        | START_DEFINITION_LIST =>
          simp only [chapterLoopGo]
          by_cases hb : line = []
          · rw [if_pos hb, if_pos hb,
              ih f2' _ none ls (by simp [chapterMeasure, pbWeight] at h1 ⊢; omega)
                (by simp [chapterMeasure, pbWeight] at h2 ⊢; omega)]
          · rw [if_neg hb, if_neg hb,
              ih f2' _ (some line) ls (by simp [chapterMeasure, pbWeight] at h1 ⊢; omega)
                (by simp [chapterMeasure, pbWeight] at h2 ⊢; omega)]
        | READING_DEFINITION_LIST_DEFINITION_FIRST_LINE =>
          simp only [chapterLoopGo]
          rw [ih f2' _ none ls (by simp [chapterMeasure, pbWeight] at h1 ⊢; omega)
              (by simp [chapterMeasure, pbWeight] at h2 ⊢; omega)]
        | READING_DEFINITION_LIST_DEFINITION =>
          simp only [chapterLoopGo]
          by_cases hb : line = []
          · rw [if_pos hb, if_pos hb,
              ih f2' _ none ls (by simp [chapterMeasure, pbWeight] at h1 ⊢; omega)
                (by simp [chapterMeasure, pbWeight] at h2 ⊢; omega)]
          · rw [if_neg hb, if_neg hb]
            by_cases hsp : (startsWithPySpace line || line.isEmpty) = true
            · rw [if_pos hsp, if_pos hsp,
                ih f2' _ none ls (by simp [chapterMeasure, pbWeight] at h1 ⊢; omega)
                  (by simp [chapterMeasure, pbWeight] at h2 ⊢; omega)]
            · rw [if_neg hsp, if_neg hsp]
              exact ih f2' _ (some line) ls
                (by simp [chapterMeasure, pbWeight] at h1 ⊢; omega)
                (by simp [chapterMeasure, pbWeight] at h2 ⊢; omega)

theorem chapterLoop_nil (rw : Line → Except ProcError Line) (s : ChapterParserState) :
    chapterLoop rw s none [] = .ok [] := by
  cases s <;> rfl

theorem chapterLoop_pop (rw : Line → Except ProcError Line) (s : ChapterParserState)
    (l : Line) (ls : List Line) :
    chapterLoop rw s none (l :: ls) = rw l >>= fun line => chapterLoop rw s (some line) ls := by
  have hf : 3 * (l :: ls).length + 3 = (3 * ls.length + 5) + 1 := by simp; omega
  unfold chapterLoop
  rw [hf, chapterLoopGo.eq_def]
  simp only []
  cases hrw : rw l with
  | error e => rw [except_bind_err, except_bind_err]
  | ok line =>
    rw [except_bind_ok, except_bind_ok]
    exact chapterLoopGo_fuel_eq rw _ _ s (some line) ls
      (by simp only [chapterMeasure]; cases s <;> simp [pbWeight])
      (by simp only [chapterMeasure]; cases s <;> simp [pbWeight])

theorem chapterLoop_start_term (rw : Line → Except ProcError Line) {line label : Line}
    (ls : List Line) (h : termMatch line = some label) :
    chapterLoop rw .START (some line) ls
      = (chapterLoop rw .START_DEFINITION_LIST none ls).map (fun out => label :: out) := by
  have hf : 3 * ls.length + 3 = (3 * ls.length + 2) + 1 := by omega
  unfold chapterLoop
  rw [hf, chapterLoopGo.eq_def]
  simp only [h]
  rw [chapterLoopGo_fuel_eq rw (3 * ls.length + 2) (3 * ls.length + 3) _ none ls
    (by simp only [chapterMeasure]; omega) (by simp only [chapterMeasure]; omega)]

theorem chapterLoop_start_plain (rw : Line → Except ProcError Line) {line : Line}
    (ls : List Line) (h : termMatch line = none) :
    chapterLoop rw .START (some line) ls
      = (chapterLoop rw .START none ls).map (fun out => line :: out) := by
  have hf : 3 * ls.length + 3 = (3 * ls.length + 2) + 1 := by omega
  unfold chapterLoop
  rw [hf, chapterLoopGo.eq_def]
  simp only [h]
  rw [chapterLoopGo_fuel_eq rw (3 * ls.length + 2) (3 * ls.length + 3) _ none ls
    (by simp only [chapterMeasure]; omega) (by simp only [chapterMeasure]; omega)]

theorem chapterLoop_sdl (rw : Line → Except ProcError Line) {line : Line} (ls : List Line)
    (hb : line ≠ []) :
    chapterLoop rw .START_DEFINITION_LIST (some line) ls
      = (chapterLoop rw .READING_DEFINITION_LIST_DEFINITION_FIRST_LINE (some line) ls).map
          (fun out => [] :: out) := by
  have hf : 3 * ls.length + 3 = (3 * ls.length + 2) + 1 := by omega
  unfold chapterLoop
  conv_lhs => rw [hf, chapterLoopGo.eq_def]
  simp only []
  rw [if_neg hb]
  rw [chapterLoopGo_fuel_eq rw (3 * ls.length + 2) (3 * ls.length + 3) _ (some line) ls
    (by simp only [chapterMeasure, pbWeight]; omega)
    (by simp only [chapterMeasure, pbWeight]; omega)]

theorem chapterLoop_sdl_blank (rw : Line → Except ProcError Line) (ls : List Line) :
    chapterLoop rw .START_DEFINITION_LIST (some []) ls
      = (chapterLoop rw .READING_DEFINITION_LIST_DEFINITION_FIRST_LINE none ls).map
          (fun out => [] :: out) := by
  have hf : 3 * ls.length + 3 = (3 * ls.length + 2) + 1 := by omega
  unfold chapterLoop
  conv_lhs => rw [hf, chapterLoopGo.eq_def]
  simp only [if_pos rfl]
  rw [chapterLoopGo_fuel_eq rw (3 * ls.length + 2) (3 * ls.length + 3) _ none ls
    (by simp only [chapterMeasure]; omega) (by simp only [chapterMeasure]; omega)]
  simp

theorem chapterLoop_first (rw : Line → Except ProcError Line) (line : Line) (ls : List Line) :
    chapterLoop rw .READING_DEFINITION_LIST_DEFINITION_FIRST_LINE (some line) ls
      = (chapterLoop rw .READING_DEFINITION_LIST_DEFINITION none ls).map
          (fun out => (":    ".data ++ lstrip line) :: out) := by
  have hf : 3 * ls.length + 3 = (3 * ls.length + 2) + 1 := by omega
  unfold chapterLoop
  conv_lhs => rw [hf, chapterLoopGo.eq_def]
  simp only []
  rw [chapterLoopGo_fuel_eq rw (3 * ls.length + 2) (3 * ls.length + 3) _ none ls
    (by simp only [chapterMeasure]; omega) (by simp only [chapterMeasure]; omega)]

theorem chapterLoop_reading_blank (rw : Line → Except ProcError Line) (ls : List Line) :
    chapterLoop rw .READING_DEFINITION_LIST_DEFINITION (some []) ls
      = (chapterLoop rw .READING_DEFINITION_LIST_DEFINITION none ls).map
          (fun out => [] :: out) := by
  have hf : 3 * ls.length + 3 = (3 * ls.length + 2) + 1 := by omega
  unfold chapterLoop
  conv_lhs => rw [hf, chapterLoopGo.eq_def]
  simp only [if_pos rfl]
  rw [chapterLoopGo_fuel_eq rw (3 * ls.length + 2) (3 * ls.length + 3) _ none ls
    (by simp only [chapterMeasure]; omega) (by simp only [chapterMeasure]; omega)]
  simp

theorem chapterLoop_reading_indent (rw : Line → Except ProcError Line) {line : Line}
    (ls : List Line) (h1 : line ≠ []) (h2 : startsWithPySpace line = true) :
    chapterLoop rw .READING_DEFINITION_LIST_DEFINITION (some line) ls
      = (chapterLoop rw .READING_DEFINITION_LIST_DEFINITION none ls).map
          (fun out => ("    ".data ++ lstrip line) :: out) := by
  have hf : 3 * ls.length + 3 = (3 * ls.length + 2) + 1 := by omega
  unfold chapterLoop
  conv_lhs => rw [hf, chapterLoopGo.eq_def]
  simp only []
  rw [if_neg h1, if_pos (by simp [h2])]
  rw [chapterLoopGo_fuel_eq rw (3 * ls.length + 2) (3 * ls.length + 3) _ none ls
    (by simp only [chapterMeasure]; omega) (by simp only [chapterMeasure]; omega)]

theorem chapterLoop_reading_end (rw : Line → Except ProcError Line) {line : Line}
    (ls : List Line) (h1 : line ≠ []) (h2 : startsWithPySpace line = false) :
    chapterLoop rw .READING_DEFINITION_LIST_DEFINITION (some line) ls
      = chapterLoop rw .START (some line) ls := by
  have hf : 3 * ls.length + 3 = (3 * ls.length + 2) + 1 := by omega
  unfold chapterLoop
  conv_lhs => rw [hf, chapterLoopGo.eq_def]
  simp only []
  rw [if_neg h1, if_neg (by simp [h2, h1])]
  exact chapterLoopGo_fuel_eq rw (3 * ls.length + 2) (3 * ls.length + 3) _ (some line) ls
    (by simp only [chapterMeasure, pbWeight]; omega)
    (by simp only [chapterMeasure, pbWeight]; omega)

theorem chapterLoop_map_rw (f : Line → Line) :
    ∀ n : Nat, ∀ s : ChapterParserState, ∀ pb : Option Line, ∀ ls : List Line,
    chapterMeasure s pb ls ≤ n →
    chapterLoop (fun l => .ok (f l)) s pb ls = chapterLoop Except.ok s pb (ls.map f) := by
  intro n
  induction n with
  | zero =>
    intro s pb ls h
    have hpb : pb = none := by
      cases pb with
      | none => rfl
      | some line =>
        exfalso
        have h1 : 1 ≤ pbWeight s := by cases s <;> simp [pbWeight]
        simp only [chapterMeasure] at h
        omega
    have hls : ls = [] := by
      cases ls with
      | nil => rfl
      | cons l rest => simp [chapterMeasure, hpb] at h
    subst hpb; subst hls
    simp [chapterLoop_nil]
  | succ n ih =>
    intro s pb ls h
    cases pb with
    | none =>
      cases ls with
      | nil => simp [chapterLoop_nil]
      | cons l rest =>
        rw [List.map_cons, chapterLoop_pop, chapterLoop_pop, except_bind_ok, except_bind_ok]
        apply ih
        have h2 : pbWeight s ≤ 2 := by cases s <;> simp [pbWeight]
        simp only [chapterMeasure, List.length_cons] at h ⊢
        omega
    | some line =>
      cases s with
      | START =>
        cases htm : termMatch line with
        | some label =>
          rw [chapterLoop_start_term _ _ htm, chapterLoop_start_term _ _ htm,
            ih .START_DEFINITION_LIST none ls
              (by simp only [chapterMeasure, pbWeight] at h ⊢; omega)]
        | none =>
          rw [chapterLoop_start_plain _ _ htm, chapterLoop_start_plain _ _ htm,
            ih .START none ls (by simp only [chapterMeasure, pbWeight] at h ⊢; omega)]
      | START_DEFINITION_LIST =>
        by_cases hb : line = []
        · subst hb
          rw [chapterLoop_sdl_blank, chapterLoop_sdl_blank,
            ih .READING_DEFINITION_LIST_DEFINITION_FIRST_LINE none ls
              (by simp only [chapterMeasure, pbWeight] at h ⊢; omega)]
        · rw [chapterLoop_sdl _ _ hb, chapterLoop_sdl _ _ hb,
            ih .READING_DEFINITION_LIST_DEFINITION_FIRST_LINE (some line) ls
              (by simp only [chapterMeasure, pbWeight] at h ⊢; omega)]
      | READING_DEFINITION_LIST_DEFINITION_FIRST_LINE =>
        rw [chapterLoop_first, chapterLoop_first,
          ih .READING_DEFINITION_LIST_DEFINITION none ls
            (by simp only [chapterMeasure, pbWeight] at h ⊢; omega)]
      | READING_DEFINITION_LIST_DEFINITION =>
        by_cases hb : line = []
        · subst hb
          rw [chapterLoop_reading_blank, chapterLoop_reading_blank,
            ih .READING_DEFINITION_LIST_DEFINITION none ls
              (by simp only [chapterMeasure, pbWeight] at h ⊢; omega)]
        · cases hsp : startsWithPySpace line with
          | true =>
            rw [chapterLoop_reading_indent _ _ hb hsp, chapterLoop_reading_indent _ _ hb hsp,
              ih .READING_DEFINITION_LIST_DEFINITION none ls
                (by simp only [chapterMeasure, pbWeight] at h ⊢; omega)]
          | false =>
            rw [chapterLoop_reading_end _ _ hb hsp, chapterLoop_reading_end _ _ hb hsp,
              ih .START (some line) ls
                (by simp only [chapterMeasure, pbWeight] at h ⊢; omega)]

theorem termMatch_some_shape {l lab : Line} (h : termMatch l = some lab) :
    l ≠ [] ∧ startsWithPySpace l = false := by
  unfold termMatch at h
  by_cases hp : "- term ".data.isPrefixOf l
  · obtain ⟨t, ht⟩ := List.isPrefixOf_iff_prefix.mp hp
    subst ht
    refine ⟨by simp, ?_⟩
    show startsWithPySpace ('-' :: (" term ".data ++ t)) = false
    rfl
  · simp [hp] at h

/-- C2: each input line passes through the line rewriter exactly once, when
it is first read from the input.  Formally, running the transpiler loop
with a total line rewriter applied on read is the same as running it with
the identity rewriter over the pre-rewritten line sequence — the pushback
slot is never rewritten again.  In particular (second conjunct) a heading
line read inside the definition-list body state and pushed back gains
exactly one additional heading marker in the output, never two. -/
theorem C2_line_rewriter_applied_exactly_once :
    (∀ (f : Line → Line) (s : ChapterParserState) (pb : Option Line) (ls : List Line),
      chapterLoop (fun l => .ok (f l)) s pb ls = chapterLoop Except.ok s pb (ls.map f))
    ∧ chapterLoop (fun l => .ok (rewrite_docc_markdown_line_for_pandoc_heading_level_shift l))
        .START none ["- term A:".data, "x".data, "## H".data]
      = .ok ["A".data, [], ":    x".data, "### H".data] :=
  ⟨fun f s pb ls => chapterLoop_map_rw f (chapterMeasure s pb ls) s pb ls (le_refl _), by rfl⟩

/-- C10 as stated is false: when the machine is in the list-header-pending
state while the final header-matching line arrives (here: two consecutive
`- term ...:` lines), that line is re-read as the definition's first line,
so the output ends with `:    - term B:` — not with the label `B` — and
the blank separator line is emitted.  The conjuncts exhibit the run, that
the final input line does match the header pattern, and that the last
output line is not its label. -/
theorem C10_counterexample :
    chapterLoop Except.ok .START none ["- term A:".data, "- term B:".data]
        = .ok ["A".data, [], ":    - term B:".data]
      ∧ termMatch "- term B:".data = some "B".data
      ∧ (":    - term B:".data ≠ "B".data) :=
  ⟨by rfl, by decide, by decide⟩

/-- C10 (amended): if the final input line is read in the normal state or
in the definition-body state and, after line rewriting, matches the
definition-list header pattern, the transpiler emits exactly its label and
stops — the blank separator and the `:    `-prefixed first definition line
that normally follow a header are not emitted, because the loop exits with
the machine still in the list-header-pending state. -/
theorem C10_trailing_definition_header (rw : Line → Except ProcError Line)
    (s : ChapterParserState) (last lastR label : Line)
    (hs : s = .START ∨ s = .READING_DEFINITION_LIST_DEFINITION)
    (hrw : rw last = .ok lastR) (hterm : termMatch lastR = some label) :
    chapterLoop rw s none [last] = .ok [label] := by
  rcases hs with hs | hs <;> subst hs <;>
    rw [chapterLoop_pop, hrw, except_bind_ok]
  · rw [chapterLoop_start_term _ _ hterm, chapterLoop_nil]
    rfl
  · obtain ⟨hne, hns⟩ := termMatch_some_shape hterm
    rw [chapterLoop_reading_end _ _ hne hns, chapterLoop_start_term _ _ hterm, chapterLoop_nil]
    rfl

/-- Witness for `C10_trailing_definition_header` at a concrete input. -/
theorem C10_trailing_definition_header_witness :
    ((ChapterParserState.START = ChapterParserState.START
        ∨ ChapterParserState.START = ChapterParserState.READING_DEFINITION_LIST_DEFINITION)
      ∧ (Except.ok "- term Foo:".data : Except ProcError Line) = Except.ok "- term Foo:".data
      ∧ termMatch "- term Foo:".data = some "Foo".data)
    ∧ chapterLoop Except.ok .START none ["- term Foo:".data] = .ok ["Foo".data] :=
  ⟨⟨Or.inl rfl, rfl, by decide⟩,
    C10_trailing_definition_header Except.ok .START "- term Foo:".data "- term Foo:".data
      "Foo".data (Or.inl rfl) rfl (by decide)⟩

theorem chapterLoop_steps_to_terminal (rw : Line → Line) :
    ∀ n : Nat, ∀ s : ChapterParserState, ∀ pb : Option Line, ∀ ls : List Line,
    chapterMeasure s pb ls ≤ n → ∀ out : List Line,
    ∃ (k : Nat) (t : List Line) (s' : ChapterParserState),
      k ≤ chapterMeasure s pb ls ∧
      chapterLoop (fun l => .ok (rw l)) s pb ls = .ok t ∧
      (transpilerStep rw)^[k] ⟨s, pb, ls, out⟩ = ⟨s', none, [], out ++ t⟩ := by
  intro n
  induction n with
  | zero =>
    intro s pb ls h out
    have hpb : pb = none := by
      cases pb with
      | none => rfl
      | some line =>
        exfalso
        have h1 : 1 ≤ pbWeight s := by cases s <;> simp [pbWeight]
        simp only [chapterMeasure] at h
        omega
    have hls : ls = [] := by
      cases ls with
      | nil => rfl
      | cons l rest => simp [chapterMeasure, hpb] at h
    subst hpb; subst hls
    exact ⟨0, [], s, by simp [chapterMeasure], chapterLoop_nil (fun l => .ok (rw l)) s, by simp⟩
  | succ n ih =>
    intro s pb ls h out
    cases pb with
    | none =>
      cases ls with
      | nil => exact ⟨0, [], s, by simp [chapterMeasure], chapterLoop_nil (fun l => .ok (rw l)) s, by simp⟩
      | cons l rest =>
        have hm : chapterMeasure s (some (rw l)) rest ≤ n := by
          have h2 : pbWeight s ≤ 2 := by cases s <;> simp [pbWeight]
          simp only [chapterMeasure, List.length_cons] at h ⊢
          omega
        obtain ⟨k, t, s', hk, hcl, hit⟩ := ih s (some (rw l)) rest hm out
        refine ⟨k + 1, t, s', ?_, ?_, ?_⟩
        · have h2 : pbWeight s ≤ 2 := by cases s <;> simp [pbWeight]
          simp only [chapterMeasure, List.length_cons] at hk ⊢
          omega
        · rw [chapterLoop_pop, except_bind_ok, hcl]
        · rw [Function.iterate_succ_apply]
          have hstep : transpilerStep rw ⟨s, none, l :: rest, out⟩
              = ⟨s, some (rw l), rest, out⟩ := by
            simp [transpilerStep]
          rw [hstep, hit]
    | some line =>
      cases s with
      | START =>
        cases htm : termMatch line with
        | some label =>
          have hm : chapterMeasure .START_DEFINITION_LIST none ls ≤ n := by
            simp only [chapterMeasure, pbWeight] at h ⊢; omega
          obtain ⟨k, t, s', hk, hcl, hit⟩ :=
            ih .START_DEFINITION_LIST none ls hm (out ++ [label])
          refine ⟨k + 1, label :: t, s', ?_, ?_, ?_⟩
          · simp only [chapterMeasure, pbWeight] at hk ⊢; omega
          · rw [chapterLoop_start_term _ _ htm, hcl]; rfl
          · rw [Function.iterate_succ_apply]
            have hstep : transpilerStep rw ⟨.START, some line, ls, out⟩
                = ⟨.START_DEFINITION_LIST, none, ls, out ++ [label]⟩ := by
              simp [transpilerStep, htm]
            rw [hstep, hit]
            simp
        | none =>
          have hm : chapterMeasure .START none ls ≤ n := by
            simp only [chapterMeasure, pbWeight] at h ⊢; omega
          obtain ⟨k, t, s', hk, hcl, hit⟩ := ih .START none ls hm (out ++ [line])
          refine ⟨k + 1, line :: t, s', ?_, ?_, ?_⟩
          · simp only [chapterMeasure, pbWeight] at hk ⊢; omega
          · rw [chapterLoop_start_plain _ _ htm, hcl]; rfl
          · rw [Function.iterate_succ_apply]
            have hstep : transpilerStep rw ⟨.START, some line, ls, out⟩
                = ⟨.START, none, ls, out ++ [line]⟩ := by
              simp [transpilerStep, htm]
            rw [hstep, hit]
            simp
      | START_DEFINITION_LIST =>
        by_cases hb : line = []
        · subst hb
          have hm : chapterMeasure .READING_DEFINITION_LIST_DEFINITION_FIRST_LINE
              none ls ≤ n := by
            simp only [chapterMeasure, pbWeight] at h ⊢; omega
          obtain ⟨k, t, s', hk, hcl, hit⟩ :=
            ih .READING_DEFINITION_LIST_DEFINITION_FIRST_LINE none ls hm (out ++ [[]])
          refine ⟨k + 1, [] :: t, s', ?_, ?_, ?_⟩
          · simp only [chapterMeasure, pbWeight] at hk ⊢; omega
          · rw [chapterLoop_sdl_blank, hcl]; rfl
          · rw [Function.iterate_succ_apply]
            have hstep : transpilerStep rw
                ⟨.START_DEFINITION_LIST, some [], ls, out⟩
                = ⟨.READING_DEFINITION_LIST_DEFINITION_FIRST_LINE, none, ls,
                    out ++ [[]]⟩ := by
              simp [transpilerStep]
            rw [hstep, hit]
            simp
        · have hm : chapterMeasure .READING_DEFINITION_LIST_DEFINITION_FIRST_LINE
              (some line) ls ≤ n := by
            simp only [chapterMeasure, pbWeight] at h ⊢; omega
          obtain ⟨k, t, s', hk, hcl, hit⟩ :=
            ih .READING_DEFINITION_LIST_DEFINITION_FIRST_LINE (some line) ls hm (out ++ [[]])
          refine ⟨k + 1, [] :: t, s', ?_, ?_, ?_⟩
          · simp only [chapterMeasure, pbWeight] at hk ⊢; omega
          · rw [chapterLoop_sdl _ _ hb, hcl]; rfl
          · rw [Function.iterate_succ_apply]
            have hstep : transpilerStep rw
                ⟨.START_DEFINITION_LIST, some line, ls, out⟩
                = ⟨.READING_DEFINITION_LIST_DEFINITION_FIRST_LINE, some line, ls,
                    out ++ [[]]⟩ := by
              simp [transpilerStep, hb]
            rw [hstep, hit]
            simp
      | READING_DEFINITION_LIST_DEFINITION_FIRST_LINE =>
        have hm : chapterMeasure .READING_DEFINITION_LIST_DEFINITION none ls ≤ n := by
          simp only [chapterMeasure, pbWeight] at h ⊢; omega
        obtain ⟨k, t, s', hk, hcl, hit⟩ := ih .READING_DEFINITION_LIST_DEFINITION none ls hm
          (out ++ [":    ".data ++ lstrip line])
        refine ⟨k + 1, (":    ".data ++ lstrip line) :: t, s', ?_, ?_, ?_⟩
        · simp only [chapterMeasure, pbWeight] at hk ⊢; omega
        · rw [chapterLoop_first, hcl]; rfl
        · rw [Function.iterate_succ_apply]
          have hstep : transpilerStep rw
              ⟨.READING_DEFINITION_LIST_DEFINITION_FIRST_LINE, some line, ls, out⟩
              = ⟨.READING_DEFINITION_LIST_DEFINITION, none, ls,
                  out ++ [":    ".data ++ lstrip line]⟩ := by
            simp [transpilerStep]
          rw [hstep, hit]
          simp
      | READING_DEFINITION_LIST_DEFINITION =>
        by_cases hb : line = []
        · subst hb
          have hm : chapterMeasure .READING_DEFINITION_LIST_DEFINITION none ls ≤ n := by
            simp only [chapterMeasure, pbWeight] at h ⊢; omega
          obtain ⟨k, t, s', hk, hcl, hit⟩ :=
            ih .READING_DEFINITION_LIST_DEFINITION none ls hm (out ++ [[]])
          refine ⟨k + 1, [] :: t, s', ?_, ?_, ?_⟩
          · simp only [chapterMeasure, pbWeight] at hk ⊢; omega
          · rw [chapterLoop_reading_blank, hcl]; rfl
          · rw [Function.iterate_succ_apply]
            have hstep : transpilerStep rw
                ⟨.READING_DEFINITION_LIST_DEFINITION, some [], ls, out⟩
                = ⟨.READING_DEFINITION_LIST_DEFINITION, none, ls, out ++ [[]]⟩ := by
              simp [transpilerStep]
            rw [hstep, hit]
            simp
        · cases hsp : startsWithPySpace line with
          | true =>
            have hm : chapterMeasure .READING_DEFINITION_LIST_DEFINITION none ls ≤ n := by
              simp only [chapterMeasure, pbWeight] at h ⊢; omega
            obtain ⟨k, t, s', hk, hcl, hit⟩ :=
              ih .READING_DEFINITION_LIST_DEFINITION none ls hm
                (out ++ ["    ".data ++ lstrip line])
            refine ⟨k + 1, ("    ".data ++ lstrip line) :: t, s', ?_, ?_, ?_⟩
            · simp only [chapterMeasure, pbWeight] at hk ⊢; omega
            · rw [chapterLoop_reading_indent _ _ hb hsp, hcl]; rfl
            · rw [Function.iterate_succ_apply]
              have hstep : transpilerStep rw
                  ⟨.READING_DEFINITION_LIST_DEFINITION, some line, ls, out⟩
                  = ⟨.READING_DEFINITION_LIST_DEFINITION, none, ls,
                      out ++ ["    ".data ++ lstrip line]⟩ := by
                simp [transpilerStep, hb, hsp]
              rw [hstep, hit]
              simp
          | false =>
            have hm : chapterMeasure .START (some line) ls ≤ n := by
              simp only [chapterMeasure, pbWeight] at h ⊢; omega
            obtain ⟨k, t, s', hk, hcl, hit⟩ := ih .START (some line) ls hm out
            refine ⟨k + 1, t, s', ?_, ?_, ?_⟩
            · simp only [chapterMeasure, pbWeight] at hk ⊢; omega
            · rw [chapterLoop_reading_end _ _ hb hsp, hcl]
            · rw [Function.iterate_succ_apply]
              have hstep : transpilerStep rw
                  ⟨.READING_DEFINITION_LIST_DEFINITION, some line, ls, out⟩
                  = ⟨.START, some line, ls, out⟩ := by
                simp [transpilerStep, hb, hsp]
              rw [hstep, hit]

/-- C9: for every finite input, from every state and pushback content, the
transpiler loop terminates: within at most `3·(input length) + 2`
iterations of the loop's small-step function the machine reaches a
configuration with the input exhausted and no pushback pending, having
appended exactly the lines that `chapterLoop` computes (which always
succeeds for a total line rewriter). -/
theorem C9_transpiler_loop_terminates (rw : Line → Line) (s : ChapterParserState)
    (pb : Option Line) (ls out : List Line) :
    ∃ (k : Nat) (t : List Line) (s' : ChapterParserState),
      k ≤ 3 * ls.length + 2 ∧
      chapterLoop (fun l => .ok (rw l)) s pb ls = .ok t ∧
      (transpilerStep rw)^[k] ⟨s, pb, ls, out⟩ = ⟨s', none, [], out ++ t⟩ := by
  obtain ⟨k, t, s', hk, hcl, hit⟩ :=
    chapterLoop_steps_to_terminal rw (chapterMeasure s pb ls) s pb ls (le_refl _) out
  refine ⟨k, t, s', ?_, hcl, hit⟩
  have h2 : pbWeight s ≤ 2 := by cases s <;> simp [pbWeight]
  simp only [chapterMeasure] at hk
  cases pb <;> simp at hk <;> omega

theorem except_map_ok {a b : Type} (f : a → b) (x : a) :
    Except.map f (Except.ok x : Except ProcError a) = .ok (f x) := rfl

theorem except_map_err {a b : Type} (f : a → b) (e : ProcError) :
    Except.map f (Except.error e : Except ProcError a) = .error e := rfl

theorem chapterLoop_reading_body (rw : Line → Except ProcError Line) :
    ∀ (body bodyR tailLines : List Line),
    body.mapM rw = .ok bodyR →
    (∀ b ∈ bodyR, b = [] ∨ startsWithPySpace b = true) →
    chapterLoop rw .READING_DEFINITION_LIST_DEFINITION none (body ++ tailLines)
      = (chapterLoop rw .READING_DEFINITION_LIST_DEFINITION none tailLines).map
          (fun out =>
            bodyR.map (fun b => if b = [] then [] else "    ".data ++ lstrip b) ++ out) := by
  intro body
  induction body with
  | nil =>
    intro bodyR tailLines hmap hshape
    have hnil : bodyR = [] := by
      rw [List.mapM_nil] at hmap
      simp only [pure, Except.pure, Except.ok.injEq] at hmap
      exact hmap.symm
    subst hnil
    simp only [List.nil_append, List.map_nil]
    cases chapterLoop rw .READING_DEFINITION_LIST_DEFINITION none tailLines <;> rfl
  | cons b bs ih =>
    intro bodyR tailLines hmap hshape
    rw [List.mapM_cons] at hmap
    cases hb : rw b with
    | error e => rw [hb] at hmap; simp [except_bind_err] at hmap
    | ok bR =>
      rw [hb] at hmap
      cases hbs : bs.mapM rw with
      | error e =>
        rw [hbs] at hmap
        simp only [except_bind_ok] at hmap
        simp [except_bind_err] at hmap
      | ok bsR =>
        rw [hbs] at hmap
        simp only [except_bind_ok] at hmap
        have hbodyR : bodyR = bR :: bsR := by
          cases hmap; rfl
        subst hbodyR
        rw [List.cons_append, chapterLoop_pop, hb, except_bind_ok]
        have hshape' : ∀ x ∈ bsR, x = [] ∨ startsWithPySpace x = true := by
          intro x hx; exact hshape x (by simp [hx])
        rcases hshape bR (by simp) with hblank | hindent
        · subst hblank
          rw [chapterLoop_reading_blank, ih bsR tailLines hbs hshape']
          cases chapterLoop rw .READING_DEFINITION_LIST_DEFINITION none tailLines <;>
            simp [except_map_ok, except_map_err]
        · have hne : bR ≠ [] := by
            intro hcontra; subst hcontra; simp [startsWithPySpace] at hindent
          rw [chapterLoop_reading_indent _ _ hne hindent, ih bsR tailLines hbs hshape']
          cases chapterLoop rw .READING_DEFINITION_LIST_DEFINITION none tailLines <;>
            simp [hne, except_map_ok, except_map_err]

/-- C1 as stated is false when the line immediately following the
`- term LABEL:` header is blank: that line is pushed back by the
list-header-pending state, but the source's `if pushback:` truthiness
test never takes an empty pushback up again, so the blank line is lost
and the NEXT line becomes the `:    `-prefixed definition first line.  On
`['- term A:', '', 'next']` the program emits `['A', '', ':    next']`,
whereas the claim prescribes the blank first body line itself prefixed
(`:    `) and `next` processed separately (`['A', '', ':    ', 'next']`). -/
theorem C1_counterexample :
    chapterLoop Except.ok .START none ["- term A:".data, [], "next".data]
        = .ok ["A".data, [], ":    next".data]
      ∧ ["A".data, ([] : Line), ":    next".data]
        ≠ ["A".data, [], ":    ".data, "next".data] :=
  ⟨by rfl, by decide⟩

/-- C1 (amended): a definition-list block — a `- term LABEL:` header line
followed by a body of blank or whitespace-indented lines and terminated by
the first non-blank non-indented line — is rewritten into the label line,
a blank line, the first body line prefixed by `:    ` after trimming its
leading whitespace, each further indented body line re-indented to exactly
four spaces, blank body lines kept blank; the terminating line is pushed
back and the loop continues from it in the normal state.  This holds
provided the first body line is non-blank after rewriting: a blank line
right after the header is dropped by the empty-pushback truthiness test
(see `C1_counterexample`) and the next line takes its place.  All line
values are those produced by the line rewriter when each line is first
read. -/
theorem C1_definition_list_block_rewrite (rw : Line → Except ProcError Line)
    (header headerR b1 b1R t tR label : Line) (body bodyR rest : List Line)
    (hh : rw header = .ok headerR) (hterm : termMatch headerR = some label)
    (hb1 : rw b1 = .ok b1R) (hb1ne : b1R ≠ [])
    (hbody : body.mapM rw = .ok bodyR)
    (hshape : ∀ b ∈ bodyR, b = [] ∨ startsWithPySpace b = true)
    (ht : rw t = .ok tR) (htne : tR ≠ []) (htns : startsWithPySpace tR = false) :
    chapterLoop rw .START none (header :: b1 :: (body ++ t :: rest))
      = (chapterLoop rw .START (some tR) rest).map (fun tail =>
          label :: [] :: (":    ".data ++ lstrip b1R) ::
            (bodyR.map (fun b => if b = [] then [] else "    ".data ++ lstrip b) ++ tail)) := by
  rw [chapterLoop_pop, hh, except_bind_ok, chapterLoop_start_term _ _ hterm,
    chapterLoop_pop, hb1, except_bind_ok, chapterLoop_sdl _ _ hb1ne, chapterLoop_first,
    chapterLoop_reading_body rw body bodyR (t :: rest) hbody hshape,
    chapterLoop_pop, ht, except_bind_ok, chapterLoop_reading_end _ _ htne htns]
  cases chapterLoop rw .START (some tR) rest <;> rfl

/-- Witness for `C1_definition_list_block_rewrite`: the five-line input of
the claim produces exactly the six output lines it specifies. -/
theorem C1_definition_list_block_rewrite_witness :
    ((Except.ok "- term Foo:".data : Except ProcError Line) = .ok "- term Foo:".data
      ∧ termMatch "- term Foo:".data = some "Foo".data
      ∧ (Except.ok "Body line one".data : Except ProcError Line) = .ok "Body line one".data
      ∧ "Body line one".data ≠ []
      ∧ ["  indented line".data, [] ].mapM Except.ok
          = (.ok ["  indented line".data, []] : Except ProcError (List Line))
      ∧ (∀ b ∈ ["  indented line".data, ([] : Line)], b = [] ∨ startsWithPySpace b = true)
      ∧ (Except.ok "Next paragraph".data : Except ProcError Line) = .ok "Next paragraph".data
      ∧ "Next paragraph".data ≠ []
      ∧ startsWithPySpace "Next paragraph".data = false)
    ∧ chapterLoop Except.ok .START none
        ["- term Foo:".data, "Body line one".data, "  indented line".data, [],
          "Next paragraph".data]
      = .ok ["Foo".data, [], ":    Body line one".data, "    indented line".data, [],
          "Next paragraph".data] := by
  refine ⟨⟨rfl, by decide, rfl, by decide, by rfl, by decide, rfl, by decide, by decide⟩, ?_⟩
  have h := C1_definition_list_block_rewrite Except.ok
    "- term Foo:".data "- term Foo:".data "Body line one".data "Body line one".data
    "Next paragraph".data "Next paragraph".data "Foo".data
    ["  indented line".data, []] ["  indented line".data, []] []
    rfl (by decide) rfl (by decide) (by rfl) (by decide) rfl (by decide) (by decide)
  exact h.trans (by rfl)

theorem internal_refs_cons_clean (m : RefIndex) (c : Char) (cs : List Char) (hc : c ≠ '<') :
    rewrite_docc_markdown_line_for_pandoc_internal_references m (c :: cs)
      = rewrite_docc_markdown_line_for_pandoc_internal_references m cs >>=
          fun tail => .ok (c :: tail) := by
  unfold rewrite_docc_markdown_line_for_pandoc_internal_references
  rw [show (c :: cs).length = cs.length + 1 from rfl, rewriteInternalRefsGo.eq_def]
  simp only [docRefMatch_not_lt hc]

theorem internal_refs_append_clean (m : RefIndex) :
    ∀ (pre rest : List Char), (∀ c ∈ pre, c ≠ '<') →
    rewrite_docc_markdown_line_for_pandoc_internal_references m (pre ++ rest)
      = (rewrite_docc_markdown_line_for_pandoc_internal_references m rest).map
          (fun tail => pre ++ tail) := by
  intro pre
  induction pre with
  | nil =>
    intro rest h
    simp only [List.nil_append]
    cases rewrite_docc_markdown_line_for_pandoc_internal_references m rest <;> rfl
  | cons c pre' ih =>
    intro rest h
    rw [List.cons_append, internal_refs_cons_clean m c (pre' ++ rest) (h c (by simp)),
      ih rest (fun x hx => h x (by simp [hx]))]
    cases rewrite_docc_markdown_line_for_pandoc_internal_references m rest <;> rfl

theorem internal_refs_marker (m : RefIndex) (target post : List Char)
    (hne : target ≠ []) (hchars : ∀ c ∈ target, isRefChar c = true) :
    rewrite_docc_markdown_line_for_pandoc_internal_references m
        ("<doc:".data ++ (target ++ '>' :: post))
      = pandoc_markdown_reference_for_docc_reference_match m target >>= fun repl =>
          (rewrite_docc_markdown_line_for_pandoc_internal_references m post).map
            (fun tail => repl ++ tail) := by
  have hmarker : docRefMatch ('<' :: 'd' :: 'o' :: 'c' :: ':' :: (target ++ '>' :: post))
      = some (target, post) := docRefMatch_marker target post hne hchars
  unfold rewrite_docc_markdown_line_for_pandoc_internal_references
  have hlen : ("<doc:".data ++ (target ++ '>' :: post)).length
      = (target.length + post.length + 5) + 1 := by
    simp
    omega
  rw [hlen]
  show rewriteInternalRefsGo m ((target.length + post.length + 5) + 1)
      ('<' :: 'd' :: 'o' :: 'c' :: ':' :: (target ++ '>' :: post)) = _
  rw [rewriteInternalRefsGo.eq_def]
  simp only [hmarker]
  cases pandoc_markdown_reference_for_docc_reference_match m target with
  | error e => rw [except_bind_err, except_bind_err]
  | ok repl =>
    rw [except_bind_ok, except_bind_ok,
      rewriteInternalRefsGo_fuel_eq m (target.length + post.length + 5) post.length post
        (by omega) (le_refl _)]
    cases rewriteInternalRefsGo m post.length post <;> rfl

theorem splitOnChar_of_not_contains (sep : Char) :
    ∀ l : List Char, l.contains sep = false → splitOnChar sep l = [l] := by
  intro l
  induction l with
  | nil => intro h; rfl
  | cons c rest ih =>
    intro h
    simp only [List.contains_cons, Bool.or_eq_false_iff] at h
    obtain ⟨hc, hrest⟩ := h
    have hcs : ¬c = sep := by
      intro hcontra
      subst hcontra
      simp at hc
    simp only [splitOnChar, ih hrest, if_neg hcs]

/-- C3 as stated is false: a marker whose target holds two or more `#`
separators is not replaced by a `[label](#anchor)` link — the rewrite
aborts with the `ValueError` raised by unpacking `text.split('#')` into
exactly two parts, so no output line is produced at all. -/
theorem C3_counterexample :
    rewrite_docc_markdown_line_for_pandoc_internal_references [] "<doc:A#B#C>".data
        = .error (.valueError "A#B#C".data)
      ∧ ∀ s : Line,
        rewrite_docc_markdown_line_for_pandoc_internal_references [] "<doc:A#B#C>".data
          ≠ .ok s := by
  refine ⟨rfl, ?_⟩
  intro s h
  rw [show rewrite_docc_markdown_line_for_pandoc_internal_references [] "<doc:A#B#C>".data
      = .error (.valueError "A#B#C".data) from rfl] at h
  cases h

/-- C3 (amended): a well-formed inline marker `<doc:TARGET>` is replaced by
`[label](#anchor)` and the text before the marker is passed through
unchanged, with the scan continuing on the text after the marker.  When
`TARGET` splits on `#` into exactly two parts, the label is the fragment
with hyphens replaced by spaces; when `TARGET` has no `#` and its Reference
Index entry carries a title, the label is that title; either way the
anchor is the label lowercased with spaces replaced by hyphens.  A target
with two or more `#` separators (or one that is unresolvable or has no
recorded title) makes the rewrite fail instead of producing a link. -/
theorem C3_internal_reference_rewrite (m : RefIndex) (pre target post : List Char)
    (hpre : ∀ c ∈ pre, c ≠ '<') (hne : target ≠ [])
    (hchars : ∀ c ∈ target, isRefChar c = true) :
    (rewrite_docc_markdown_line_for_pandoc_internal_references m
        (pre ++ ("<doc:".data ++ (target ++ '>' :: post)))
      = pandoc_markdown_reference_for_docc_reference_match m target >>= fun repl =>
          (rewrite_docc_markdown_line_for_pandoc_internal_references m post).map
            (fun tail => pre ++ (repl ++ tail)))
    ∧ (∀ pref frag : List Char, splitOnChar '#' target = [pref, frag] →
        pandoc_markdown_reference_for_docc_reference_match m target
          = .ok ('[' :: (frag.map fun c => if c = '-' then ' ' else c) ++ "](#".data
              ++ anchor_identifier (frag.map fun c => if c = '-' then ' ' else c) ++ [')']))
    ∧ (target.contains '#' = false → ∀ (p : Line) (title : Line),
        dictLookup m target = some (p, some title) →
        pandoc_markdown_reference_for_docc_reference_match m target
          = .ok ('[' :: title ++ "](#".data ++ anchor_identifier title ++ [')'])) := by
  refine ⟨?_, ?_, ?_⟩
  · rw [internal_refs_append_clean m pre _ hpre, internal_refs_marker m target post hne hchars]
    cases pandoc_markdown_reference_for_docc_reference_match m target with
    | error e => rfl
    | ok repl =>
      rw [except_bind_ok, except_bind_ok]
      cases rewrite_docc_markdown_line_for_pandoc_internal_references m post with
      | error e => rfl
      | ok tail => rfl
  · intro pref frag hsplit
    have hc : target.contains '#' = true := by
      by_cases hc : target.contains '#'
      · exact hc
      · rw [splitOnChar_of_not_contains '#' target (by simpa using hc)] at hsplit
        simp at hsplit
    unfold pandoc_markdown_reference_for_docc_reference_match
    rw [if_pos hc, hsplit]
    rfl
  · intro hc p title hlook
    unfold pandoc_markdown_reference_for_docc_reference_match
    rw [if_neg (show ¬(target.contains '#' = true) by rw [hc]; exact Bool.false_ne_true),
      hlook]
    rfl

/-- Witness for `C3_internal_reference_rewrite` at a concrete line,
covering a resolvable marker preceded by marker-free text. -/
theorem C3_internal_reference_rewrite_witness :
    ((∀ c ∈ "a ".data, c ≠ '<') ∧ "Foo".data ≠ []
      ∧ (∀ c ∈ "Foo".data, isRefChar c = true))
    ∧ ((rewrite_docc_markdown_line_for_pandoc_internal_references
          [("Foo".data, ("p".data, some "My Title".data))]
          ("a ".data ++ ("<doc:".data ++ ("Foo".data ++ '>' :: " b".data)))
        = pandoc_markdown_reference_for_docc_reference_match
            [("Foo".data, ("p".data, some "My Title".data))] "Foo".data >>= fun repl =>
            (rewrite_docc_markdown_line_for_pandoc_internal_references
              [("Foo".data, ("p".data, some "My Title".data))] " b".data).map
              (fun tail => "a ".data ++ (repl ++ tail)))
      ∧ (∀ pref frag : List Char, splitOnChar '#' "Foo".data = [pref, frag] →
          pandoc_markdown_reference_for_docc_reference_match
              [("Foo".data, ("p".data, some "My Title".data))] "Foo".data
            = .ok ('[' :: (frag.map fun c => if c = '-' then ' ' else c) ++ "](#".data
                ++ anchor_identifier (frag.map fun c => if c = '-' then ' ' else c) ++ [')']))
      ∧ ("Foo".data.contains '#' = false → ∀ (p : Line) (title : Line),
          dictLookup [("Foo".data, ("p".data, some "My Title".data))] "Foo".data
            = some (p, some title) →
          pandoc_markdown_reference_for_docc_reference_match
              [("Foo".data, ("p".data, some "My Title".data))] "Foo".data
            = .ok ('[' :: title ++ "](#".data ++ anchor_identifier title ++ [')']))) :=
  ⟨⟨by decide, by decide, by decide⟩,
    C3_internal_reference_rewrite [("Foo".data, ("p".data, some "My Title".data))]
      "a ".data "Foo".data " b".data (by decide) (by decide) (by decide)⟩

/-- C4 as stated is false: the two stems `Foo` and `Bar` carry the distinct
titles `Go To` and `go-to`, yet both cross-references resolve to the same
anchor `go-to` — lowercasing with space-to-hyphen replacement identifies
the two titles. -/
theorem C4_counterexample :
    rewrite_docc_markdown_line_for_pandoc_internal_references
        [("Foo".data, ("p".data, some "Go To".data)),
          ("Bar".data, ("q".data, some "go-to".data))] "<doc:Foo>".data
        = .ok "[Go To](#go-to)".data
      ∧ rewrite_docc_markdown_line_for_pandoc_internal_references
          [("Foo".data, ("p".data, some "Go To".data)),
            ("Bar".data, ("q".data, some "go-to".data))] "<doc:Bar>".data
        = .ok "[go-to](#go-to)".data
      ∧ "Go To".data ≠ "go-to".data
      ∧ anchor_identifier "Go To".data = anchor_identifier "go-to".data :=
  ⟨rfl, rfl, by decide, by decide⟩

theorem map_space_to_hyphen_inj :
    ∀ t1 t2 : List Char, (∀ c ∈ t1, c ≠ '-') → (∀ c ∈ t2, c ≠ '-') →
    t1.map (fun c => if c = ' ' then '-' else c) = t2.map (fun c => if c = ' ' then '-' else c) →
    t1 = t2 := by
  intro t1
  induction t1 with
  | nil =>
    intro t2 h1 h2 h
    cases t2 with
    | nil => rfl
    | cons b bs => simp at h
  | cons a as ih =>
    intro t2 h1 h2 h
    cases t2 with
    | nil => simp at h
    | cons b bs =>
      simp only [List.map_cons, List.cons.injEq] at h
      obtain ⟨hab, habs⟩ := h
      have ha := h1 a (by simp)
      have hb := h2 b (by simp)
      have hhead : a = b := by
        by_cases has : a = ' ' <;> by_cases hbs : b = ' '
        · rw [has, hbs]
        · rw [if_pos has, if_neg hbs] at hab
          exact absurd hab.symm hb
        · rw [if_neg has, if_pos hbs] at hab
          exact absurd hab ha
        · rw [if_neg has, if_neg hbs] at hab
          exact hab
      rw [hhead, ih bs (fun c hc => h1 c (by simp [hc])) (fun c hc => h2 c (by simp [hc])) habs]

theorem pyLower_fixed {c : Char} (h : ¬('A' ≤ c ∧ c ≤ 'Z')) : pyLower c = c := by
  unfold pyLower
  rw [if_neg h]

/-- C4 (amended): the anchor computation is injective on titles made of
ASCII characters with no uppercase letters and no hyphens: two such
distinct titles always yield distinct anchors.  (Titles differing only in
letter case, or in a space versus a hyphen, collapse to the same anchor —
see the counterexample — so the restriction is necessary.) -/
theorem C4_anchor_injective_on_normalized_titles (t1 t2 : Line)
    (h1 : ∀ c ∈ t1, c.toNat < 128 ∧ ¬('A' ≤ c ∧ c ≤ 'Z') ∧ c ≠ '-')
    (h2 : ∀ c ∈ t2, c.toNat < 128 ∧ ¬('A' ≤ c ∧ c ≤ 'Z') ∧ c ≠ '-')
    (hne : t1 ≠ t2) :
    anchor_identifier t1 ≠ anchor_identifier t2 := by
  intro h
  apply hne
  unfold anchor_identifier at h
  rw [List.map_congr_left (fun c hc => pyLower_fixed (h1 c hc).2.1),
    List.map_congr_left (fun c hc => pyLower_fixed (h2 c hc).2.1),
    List.map_id', List.map_id'] at h
  exact map_space_to_hyphen_inj t1 t2 (fun c hc => (h1 c hc).2.2) (fun c hc => (h2 c hc).2.2) h

/-- Witness for `C4_anchor_injective_on_normalized_titles` at two concrete
titles. -/
theorem C4_anchor_injective_on_normalized_titles_witness :
    ((∀ c ∈ "closures".data, c.toNat < 128 ∧ ¬('A' ≤ c ∧ c ≤ 'Z') ∧ c ≠ '-')
      ∧ (∀ c ∈ "basic operators".data, c.toNat < 128 ∧ ¬('A' ≤ c ∧ c ≤ 'Z') ∧ c ≠ '-')
      ∧ "closures".data ≠ "basic operators".data)
    ∧ anchor_identifier "closures".data ≠ anchor_identifier "basic operators".data :=
  ⟨⟨by decide, by decide, by decide⟩,
    C4_anchor_injective_on_normalized_titles "closures".data "basic operators".data
      (by decide) (by decide) (by decide)⟩

theorem imageRefMatch_shape (caption name : Line) (hcap : ∀ c ∈ caption, c ≠ ']')
    (hname : ∀ c ∈ name, isImageNameChar c = true) (hne : name ≠ []) :
    imageRefMatch ("![".data ++ (caption ++ ']' :: '(' :: (name ++ [')'])))
      = some (caption, name) := by
  show imageRefMatch ('!' :: '[' :: (caption ++ ']' :: '(' :: (name ++ [')']))) = _
  unfold imageRefMatch
  simp only []
  rw [takeWhile_all_append (fun c => c != ']') caption ']' ('(' :: (name ++ [')']))
    (fun c hc => by simpa using hcap c hc) (by decide)]
  rw [List.drop_left]
  simp only []
  rw [takeWhile_all_append isImageNameChar name ')' [] hname (by decide)]
  rw [if_neg hne, List.drop_left]
  rfl

/-- C5: a line that is exactly an extension-free image reference
`![caption](name)` is rewritten to `![caption](name@2x.png){ width=P% }`
where `P` is the floor of `W / 2 / 7.6` for the asset's pixel width `W`
(the second and third conjuncts pin `scale_percentage` to that exact
rational floor); the rewrite fails when the asset file is absent or its
width cannot be determined; and an asset of width 1520 scales to 100%. -/
theorem C5_image_reference_rewrite (assets : AssetTable) (caption name : Line)
    (hcap : ∀ c ∈ caption, c ≠ ']') (hname : ∀ c ∈ name, isImageNameChar c = true)
    (hne : name ≠ []) :
    (∀ W : Nat, dictLookup assets (name ++ "@2x.png".data) = some (some W) →
      rewrite_docc_markdown_line_for_pandoc_image_reference assets
          ("![".data ++ (caption ++ ']' :: '(' :: (name ++ [')'])))
        = .ok ("![".data ++ caption ++ "](".data ++ (name ++ "@2x.png".data)
            ++ ")\x7b width=".data ++ natToDecimal (scale_percentage W) ++ "% \x7d".data)
      ∧ ((scale_percentage W : ℚ) ≤ (W : ℚ) / 2 / 7.6
          ∧ (W : ℚ) / 2 / 7.6 < scale_percentage W + 1))
    ∧ (dictLookup assets (name ++ "@2x.png".data) = none →
        rewrite_docc_markdown_line_for_pandoc_image_reference assets
            ("![".data ++ (caption ++ ']' :: '(' :: (name ++ [')'])))
          = .error (.missingAsset (name ++ "@2x.png".data)))
    ∧ (dictLookup assets (name ++ "@2x.png".data) = some none →
        rewrite_docc_markdown_line_for_pandoc_image_reference assets
            ("![".data ++ (caption ++ ']' :: '(' :: (name ++ [')'])))
          = .error (.badAssetWidth (name ++ "@2x.png".data)))
    ∧ scale_percentage 1520 = 100 := by
  have hmatch := imageRefMatch_shape caption name hcap hname hne
  refine ⟨?_, ?_, ?_, by decide⟩
  · intro W hW
    constructor
    · unfold rewrite_docc_markdown_line_for_pandoc_image_reference
      rw [hmatch]
      simp only [hW]
    · have hdiv : (W : ℚ) / 2 / 7.6 = ((W * 10 : Nat) : ℚ) / 152 := by
        push_cast
        norm_num
        ring
      have h1 : scale_percentage W * 152 ≤ W * 10 := by
        unfold scale_percentage
        omega
      have h2 : W * 10 < (scale_percentage W + 1) * 152 := by
        unfold scale_percentage
        omega
      rw [hdiv]
      constructor
      · rw [le_div_iff₀ (by norm_num)]
        exact_mod_cast h1
      · rw [div_lt_iff₀ (by norm_num)]
        exact_mod_cast h2
  · intro hW
    unfold rewrite_docc_markdown_line_for_pandoc_image_reference
    rw [hmatch]
    simp only [hW]
  · intro hW
    unfold rewrite_docc_markdown_line_for_pandoc_image_reference
    rw [hmatch]
    simp only [hW]

/-- Witness for `C5_image_reference_rewrite` with a concrete 1520-pixel
asset: the claim's instance `P = 100`. -/
theorem C5_image_reference_rewrite_witness :
    ((∀ c ∈ "cap".data, c ≠ ']') ∧ (∀ c ∈ "img".data, isImageNameChar c = true)
      ∧ "img".data ≠ [])
    ∧ (∀ W : Nat,
        dictLookup [("img@2x.png".data, some 1520)] ("img".data ++ "@2x.png".data)
          = some (some W) →
        rewrite_docc_markdown_line_for_pandoc_image_reference
            [("img@2x.png".data, some 1520)]
            ("![".data ++ ("cap".data ++ ']' :: '(' :: ("img".data ++ [')'])))
          = .ok ("![".data ++ "cap".data ++ "](".data ++ ("img".data ++ "@2x.png".data)
              ++ ")\x7b width=".data ++ natToDecimal (scale_percentage W) ++ "% \x7d".data)
        ∧ ((scale_percentage W : ℚ) ≤ (W : ℚ) / 2 / 7.6
            ∧ (W : ℚ) / 2 / 7.6 < scale_percentage W + 1)) :=
  ⟨⟨by decide, by decide, by decide⟩,
    (C5_image_reference_rewrite [("img@2x.png".data, some 1520)] "cap".data "img".data
      (by decide) (by decide) (by decide)).1⟩

theorem dictLookup_eq_none_of_not_mem {β : Type} :
    ∀ (m : List (Line × β)) (k : Line), k ∉ m.map Prod.fst → dictLookup m k = none := by
  intro m
  induction m with
  | nil => intro k h; rfl
  | cons p rest ih =>
    intro k h
    obtain ⟨k', v⟩ := p
    simp only [List.map_cons, List.mem_cons] at h
    push_neg at h
    obtain ⟨hk, hrest⟩ := h
    simp only [dictLookup, ih k hrest, if_neg (Ne.symm hk)]

/-- C8: with pairwise distinct stems, the Reference Index maps every file's
stem to that file's path paired with its extracted title — the
whitespace-trimmed text after `# ` on the first line starting with exactly
one heading marker and a space, or `none` when no such line exists. -/
theorem C8_reference_index_maps_stems (files : List MdFile)
    (hnodup : (files.map MdFile.stem).Nodup) :
    ∀ f ∈ files,
      dictLookup (book_markdown_file_stems_to_paths_and_titles_mapping files) f.stem
        = some (f.path, title_from_first_heading_in_markdown_file f.lines) := by
  induction files with
  | nil => intro f hf; cases hf
  | cons g gs ih =>
    simp only [List.map_cons, List.nodup_cons] at hnodup
    obtain ⟨hgs, hnodup'⟩ := hnodup
    intro f hf
    have hkeys : (book_markdown_file_stems_to_paths_and_titles_mapping gs).map Prod.fst
        = gs.map MdFile.stem := by
      unfold book_markdown_file_stems_to_paths_and_titles_mapping
      rw [List.map_map]
      rfl
    rcases List.mem_cons.mp hf with hf | hf
    · subst hf
      unfold book_markdown_file_stems_to_paths_and_titles_mapping
      simp only [List.map_cons, dictLookup]
      rw [show (List.map (fun f => (f.stem, (f.path, title_from_first_heading_in_markdown_file f.lines))) gs)
          = book_markdown_file_stems_to_paths_and_titles_mapping gs from rfl,
        dictLookup_eq_none_of_not_mem _ _ (by rw [hkeys]; exact hgs)]
      simp
    · have := ih hnodup' f hf
      unfold book_markdown_file_stems_to_paths_and_titles_mapping
      simp only [List.map_cons, dictLookup]
      rw [show (List.map (fun f => (f.stem, (f.path, title_from_first_heading_in_markdown_file f.lines))) gs)
          = book_markdown_file_stems_to_paths_and_titles_mapping gs from rfl, this]

/-- Witness for `C8_reference_index_maps_stems` on a concrete two-file
tree, one file with a padded title and one with no heading. -/
theorem C8_reference_index_maps_stems_witness :
    ((([⟨"/b/A.md".data, "A".data, ["x".data, "#  My Title  ".data]⟩,
        ⟨"/b/B.md".data, "B".data, ["## no top heading".data]⟩] : List MdFile).map
          MdFile.stem).Nodup
      ∧ (⟨"/b/A.md".data, "A".data, ["x".data, "#  My Title  ".data]⟩ : MdFile)
          ∈ ([⟨"/b/A.md".data, "A".data, ["x".data, "#  My Title  ".data]⟩,
              ⟨"/b/B.md".data, "B".data, ["## no top heading".data]⟩] : List MdFile))
    ∧ dictLookup
        (book_markdown_file_stems_to_paths_and_titles_mapping
          [⟨"/b/A.md".data, "A".data, ["x".data, "#  My Title  ".data]⟩,
            ⟨"/b/B.md".data, "B".data, ["## no top heading".data]⟩]) "A".data
      = some ("/b/A.md".data,
          title_from_first_heading_in_markdown_file ["x".data, "#  My Title  ".data]) :=
  ⟨⟨by decide, by decide⟩,
    C8_reference_index_maps_stems
      [⟨"/b/A.md".data, "A".data, ["x".data, "#  My Title  ".data]⟩,
        ⟨"/b/B.md".data, "B".data, ["## no top heading".data]⟩] (by decide)
      ⟨"/b/A.md".data, "A".data, ["x".data, "#  My Title  ".data]⟩ (by decide)⟩

theorem waiting_skip {m : RefIndex} {corpus : Line → List Char} {assets : AssetTable} :
    ∀ (pre rest : List Line), (∀ l ∈ pre, isHeadingLine l = false) →
    waiting_for_first_heading m corpus assets (pre ++ rest)
      = waiting_for_first_heading m corpus assets rest := by
  intro pre
  induction pre with
  | nil => intro rest h; rfl
  | cons p pre ih =>
    intro rest h
    have hp : ¬isHeadingLine p = true := by simp [h p (by simp)]
    simp only [List.cons_append, waiting_for_first_heading, hp, if_false]
    exact ih rest (fun l hl => h l (by simp [hl]))

/-- C6: chapters are spliced in exactly the textual order of their
inclusion directives: a root document whose include lines name A, B, C in
that order yields A's transpiled block, then B's, then C's (second
conjunct: every spliced block is the chapter content with the page-break
marker immediately before it and a blank line appended after it). -/
theorem C6_assembler_preserves_directive_order (header_lines : List Line) (m : RefIndex)
    (corpus : Line → List Char) (assets : AssetTable) (pre : List Line)
    (h0 d1 d2 d3 iA iB iC : Line) (chA chB chC : List Line)
    (hpre : ∀ l ∈ pre, isHeadingLine l = false) (hh : isHeadingLine h0 = true)
    (hd1 : directiveMatch d1 = some iA) (hd2 : directiveMatch d2 = some iB)
    (hd3 : directiveMatch d3 = some iC)
    (hA : lines_for_included_document m corpus assets iA = .ok chA)
    (hB : lines_for_included_document m corpus assets iB = .ok chB)
    (hC : lines_for_included_document m corpus assets iC = .ok chC) :
    preprocess_main_file_markdown header_lines m corpus assets (pre ++ h0 :: [d1, d2, d3])
      = .ok (header_lines ++ h0 :: (chA ++ (chB ++ chC)))
    ∧ ∀ (stem : Line) (ch : List Line),
        lines_for_included_document m corpus assets stem = .ok ch →
        ∃ body, ch = newpageLine :: body ++ [[]] := by
  constructor
  · unfold preprocess_main_file_markdown
    rw [waiting_skip pre (h0 :: [d1, d2, d3]) hpre]
    simp only [waiting_for_first_heading]
    rw [if_pos hh]
    simp only [process_document_includes, hd1, hd2, hd3, hA, hB, hC, except_bind_ok]
    simp [except_map_ok]
  · intro stem ch hok
    unfold lines_for_included_document at hok
    rcases hlk : dictLookup m stem with _ | pt
    · simp only [hlk] at hok
      cases hok
    · simp only [hlk] at hok
      cases hcf : rewrite_docc_markdown_chapter_file_for_pandoc m assets
          (splitlines (stripHtmlComments (corpus pt.1))) with
      | error e =>
        simp only [hcf, except_bind_err] at hok
        cases hok
      | ok lines =>
        simp only [hcf, except_bind_ok] at hok
        simp at hok
        exact ⟨lines, hok.symm⟩

/-- Witness for `C6_assembler_preserves_directive_order` on a concrete
three-chapter root document. -/
theorem C6_assembler_preserves_directive_order_witness :
    ((∀ l ∈ ["intro".data], isHeadingLine l = false)
      ∧ isHeadingLine "# Top".data = true
      ∧ directiveMatch "- `<doc:A>`".data = some "A".data
      ∧ directiveMatch "- `<doc:B>`".data = some "B".data
      ∧ directiveMatch "- `<doc:C>`".data = some "C".data
      ∧ lines_for_included_document
          [("A".data, ("pa".data, some "TA".data)), ("B".data, ("pb".data, some "TB".data)),
            ("C".data, ("pc".data, some "TC".data))]
          (fun p => if p = "pa".data then "alpha".data
            else if p = "pb".data then "beta".data else "gamma".data) [] "A".data
        = .ok [newpageLine, "alpha".data, []]
      ∧ lines_for_included_document
          [("A".data, ("pa".data, some "TA".data)), ("B".data, ("pb".data, some "TB".data)),
            ("C".data, ("pc".data, some "TC".data))]
          (fun p => if p = "pa".data then "alpha".data
            else if p = "pb".data then "beta".data else "gamma".data) [] "B".data
        = .ok [newpageLine, "beta".data, []]
      ∧ lines_for_included_document
          [("A".data, ("pa".data, some "TA".data)), ("B".data, ("pb".data, some "TB".data)),
            ("C".data, ("pc".data, some "TC".data))]
          (fun p => if p = "pa".data then "alpha".data
            else if p = "pb".data then "beta".data else "gamma".data) [] "C".data
        = .ok [newpageLine, "gamma".data, []])
    ∧ preprocess_main_file_markdown ["hdr".data]
        [("A".data, ("pa".data, some "TA".data)), ("B".data, ("pb".data, some "TB".data)),
          ("C".data, ("pc".data, some "TC".data))]
        (fun p => if p = "pa".data then "alpha".data
          else if p = "pb".data then "beta".data else "gamma".data) []
        (["intro".data] ++ "# Top".data :: ["- `<doc:A>`".data, "- `<doc:B>`".data,
          "- `<doc:C>`".data])
      = .ok (["hdr".data] ++ "# Top".data ::
          ([newpageLine, "alpha".data, []] ++ ([newpageLine, "beta".data, []]
            ++ [newpageLine, "gamma".data, []]))) :=
  ⟨⟨by decide, by decide, by decide, by decide, by decide, rfl, rfl, rfl⟩,
    (C6_assembler_preserves_directive_order ["hdr".data]
      [("A".data, ("pa".data, some "TA".data)), ("B".data, ("pb".data, some "TB".data)),
        ("C".data, ("pc".data, some "TC".data))]
      (fun p => if p = "pa".data then "alpha".data
        else if p = "pb".data then "beta".data else "gamma".data) []
      ["intro".data] "# Top".data "- `<doc:A>`".data "- `<doc:B>`".data "- `<doc:C>`".data
      "A".data "B".data "C".data
      [newpageLine, "alpha".data, []] [newpageLine, "beta".data, []]
      [newpageLine, "gamma".data, []]
      (by decide) (by decide) (by decide) (by decide) (by decide) rfl rfl rfl).1⟩

